import Mathlib

/-!
Shallow embedding of the pseudo-random generation and statistical
validation core of the `generadoresPseudoAleatorios` repository.

Python machine behaviour is modelled as follows: Python integers are `ℤ`
(arbitrary precision, `%` with a positive modulus is `Int.emod`, which like
Python returns a representative in `[0, m)`); floating point values that the
claims treat arithmetically are modelled as exact rationals `ℚ`; functions
that can `raise` return `Except String`; library calls whose numerical value
is irrelevant to a claim (scipy pmf values, transcendental functions) are
taken as explicit function parameters, while their documented domain errors
(`math.log` on non-positive input) are modelled exactly.
-/

namespace CongruentialMixed

/-- Embedding of `generate_sequence` from `src/prng/congruential_mixed.py`:
validates that `x0, a, c` are positive and that `m` exceeds all of them,
then iterates `x_{i+1} = (a * x_i + c) % m`, seed included. -/
def mixedIter (a c m x : ℤ) : ℕ → List ℤ
  | 0 => []
  | Nat.succ k =>
    let x2 := (a * x + c) % m
    x2 :: mixedIter a c m x2 k

def generate_sequence (n : ℕ) (x0 a c m : ℤ) : Except String (List ℤ) :=
  if ¬ (0 < x0 ∧ 0 < a ∧ 0 < c) then
    Except.error "x0, a, and c must be positive numbers"
  else if ¬ (max x0 (max a c) < m) then
    Except.error "m must be greater than x0, a, and c"
  else
    Except.ok (x0 :: mixedIter a c m x0 n)

end CongruentialMixed

namespace Fibonacci

/-- Embedding of `generate_sequence` from `src/prng/fibonacci.py`:
validates that `x0, x1` are positive and `m` exceeds both, builds
`[x0, x1]` followed by `n` terms of `x_{i+1} = (x_{i-1} + x_i) % m`,
and returns the list with the two seeds dropped. -/
def fibIter (m a b : ℤ) : ℕ → List ℤ
  | 0 => []
  | Nat.succ k =>
    let nxt := (a + b) % m
    nxt :: fibIter m b nxt k

def generate_sequence (n : ℕ) (x0 x1 m : ℤ) : Except String (List ℤ) :=
  if ¬ (0 < x0 ∧ 0 < x1) then
    Except.error "x0 and x1 must be positive numbers"
  else if ¬ (max x0 x1 < m) then
    Except.error "m must be greater than x0 and x1"
  else
    Except.ok (([x0, x1] ++ fibIter m x0 x1 n).drop 2)

end Fibonacci

namespace CongruentialAdditive

/-- Embedding of `generate_sequence` from `src/prng/congruential_additive.py`:
validates that `x0, c` are positive and `m` exceeds both, builds the seed
followed by `n` terms of `x_{i+1} = (x_i + c) % m`, and drops the seed. -/
def addIter (c m x : ℤ) : ℕ → List ℤ
  | 0 => []
  | Nat.succ k =>
    let x2 := (x + c) % m
    x2 :: addIter c m x2 k

def generate_sequence (n : ℕ) (x0 c m : ℤ) : Except String (List ℤ) :=
  if ¬ (0 < x0 ∧ 0 < c) then
    Except.error "x0 and c must be positive numbers"
  else if ¬ (max x0 c < m) then
    Except.error "m must be greater than x0 and c"
  else
    Except.ok ((x0 :: addIter c m x0 n).drop 1)

end CongruentialAdditive

namespace CongruentialMultiplicative

/-- Embedding of `generate_sequence` from
`src/prng/congruential_multiplicative.py`: validates that `x0, a` are
positive and `m` exceeds both, builds the seed followed by `n` terms of
`x_{i+1} = (a * x_i) % m`, and drops the seed. -/
def mulIter (a m x : ℤ) : ℕ → List ℤ
  | 0 => []
  | Nat.succ k =>
    let x2 := (a * x) % m
    x2 :: mulIter a m x2 k

def generate_sequence (n : ℕ) (x0 a m : ℤ) : Except String (List ℤ) :=
  if ¬ (0 < x0 ∧ 0 < a) then
    Except.error "x0 and a must be positive numbers"
  else if ¬ (max x0 a < m) then
    Except.error "m must be greater than x0 and a"
  else
    Except.ok ((x0 :: mulIter a m x0 n).drop 1)

end CongruentialMultiplicative

namespace MidSquare

/-- Least-significant-first base-10 digits of `v`, with explicit fuel so
that the definition is structural (fuel `v` is always enough since a
positive number has at most `v` digits). -/
def digitsRevAux (fuel : ℕ) (v : ℕ) : List ℕ :=
  match fuel with
  | 0 => []
  | Nat.succ f => if v = 0 then [] else v % 10 :: digitsRevAux f (v / 10)

/-- Decimal rendering of a non-negative integer, most significant digit
first, as produced by Python `str`; `str(0)` is the single digit `0`. -/
def decimalDigits (v : ℕ) : List ℕ :=
  if v = 0 then [0] else (digitsRevAux v v).reverse

/-- Integer value of a most-significant-first digit string, as produced by
Python `int` on a decimal string. -/
def natOfDigits (s : List ℕ) : ℕ :=
  s.foldl (fun acc dgt => 10 * acc + dgt) 0

/-- The `squared_str` of `extract_middle_digits` after the parity padding
step: one zero digit is prepended when the rendering's length parity
differs from the parity of `d`. -/
def padDigits (v d : ℕ) : List ℕ :=
  let s := decimalDigits v
  if s.length % 2 ≠ d % 2 then 0 :: s else s

/-- Embedding of `extract_middle_digits` from `src/prng/mid_square.py`:
pad on parity mismatch, fail when fewer than `d` digits remain, otherwise
take the `d` digits starting at index `(length - d) / 2`. -/
def extract_middle_digits (squared d : ℕ) : Except String ℕ :=
  let s := padDigits squared d
  if s.length < d then
    Except.error "Squared number has fewer digits than required"
  else
    Except.ok (natOfDigits ((s.drop ((s.length - d) / 2)).take d))

/-- The `n` successively generated terms of the middle-square loop starting
from current value `x`; an extraction failure in any iteration propagates. -/
def midIter (d : ℕ) (x : ℕ) : ℕ → Except String (List ℕ)
  | 0 => Except.ok []
  | Nat.succ k => do
    let x2 ← extract_middle_digits (x * x) d
    let rest ← midIter d x2 k
    pure (x2 :: rest)

/-- Embedding of `generate_sequence` from `src/prng/mid_square.py`: require
the seed to have exactly `d` decimal digits, build `series = [x1]` followed
by `n` generated terms, and return `series[2:]`. -/
def generate_sequence (n d x1 : ℕ) : Except String (List ℕ) :=
  if (decimalDigits x1).length ≠ d then
    Except.error "Initial number x1 must have exactly d digits"
  else do
    let terms ← midIter d x1 n
    pure ((x1 :: terms).drop 2)

end MidSquare

/-- Truncation toward zero, the behaviour of Python `int()` on a number. -/
def pyInt (q : ℚ) : ℤ :=
  if 0 ≤ q then ⌊q⌋ else ⌈q⌉

namespace ChiSquare

/-- Bin index computed by `chi_square_test_uniform` in
`src/prng/chi_square.py`: `interval = int(num * k)`, reset to `k - 1`
when it equals `k`. -/
def binIndex (k : ℕ) (v : ℚ) : ℤ :=
  if pyInt (v * k) = k then (k : ℤ) - 1 else pyInt (v * k)

/-- The `observed_frequencies` loop of `chi_square_test_uniform`: start from
`k` zero counters and bump the counter at each value's bin index. Python
list indexing raises on an index `≥ k` and wraps on a negative index; for
the normalized inputs of the claims the index is always in range, where
`List.set` and `List.getD` agree with the source. -/
def tally (k : ℕ) (seq : List ℚ) : List ℕ :=
  seq.foldl
    (fun freqs v =>
      freqs.set (binIndex k v).toNat (freqs.getD (binIndex k v).toNat 0 + 1))
    (List.replicate k 0)

/-- Embedding of `chi_square_test_uniform` from `src/prng/chi_square.py`,
returning the pair (statistic, degrees of freedom). The p-value, computed
by the external `scipy.stats.chi2` CDF, is outside the repository and is
not modelled. For an empty input the source would divide by zero; the
claims only concern non-empty inputs. -/
def chi_square_test_uniform (seq : List ℚ) (k : ℕ) : ℚ × ℤ :=
  (((tally k seq).map (fun (obs : ℕ) =>
      ((obs : ℚ) - (seq.length : ℚ) / k) ^ 2 / ((seq.length : ℚ) / k))).sum,
   (k : ℤ) - 1)

variable {α : Type} [DecidableEq α]

/-- Dictionary lookup with default `0`, the behaviour of
`theoretical_probs.get(value, 0)` on the dict modelled as a key-distinct
association list. -/
def lookupD (probs : List (α × ℚ)) (v : α) : ℚ :=
  match probs.find? (fun p => p.1 = v) with
  | some p => p.2
  | none => 0

/-- The `all_values` set of `chi_square_test_distribution`: the union of
the observed values and the theoretical keys, each kept once. Iteration
order of a Python set is unspecified; the statistic below is a sum and the
degrees of freedom a cardinality, neither of which depends on the order. -/
def allValues (observed : List α) (probs : List (α × ℚ)) : List α :=
  (observed ++ probs.map Prod.fst).dedup

/-- Expected frequency of a category: its theoretical probability (default
`0`) times the number of observed values. -/
def expFreq (observed : List α) (probs : List (α × ℚ)) (v : α) : ℚ :=
  lookupD probs v * observed.length

/-- Embedding of `chi_square_test_distribution` from
`src/prng/chi_square.py`, returning (statistic, degrees of freedom): each
category with expected frequency `< 5` is skipped in the statistic loop,
and the degrees of freedom are `len(all_values) - 1`. The scipy p-value is
not modelled, as for the uniform test. -/
def chi_square_test_distribution (observed : List α) (probs : List (α × ℚ)) :
    ℚ × ℤ :=
  (((allValues observed probs).map (fun v =>
      if expFreq observed probs v < 5 then 0
      else ((observed.count v : ℚ) - expFreq observed probs v) ^ 2
        / expFreq observed probs v)).sum,
   ((allValues observed probs).length : ℤ) - 1)

end ChiSquare

namespace TableDistribution

/-- The inner loop of `TableDistribution.generate` in
`src/prng/distributions.py`: walk the table in order with a running
cumulative mass, returning the first label with `r <= cumulative`; `none`
when the loop finishes without a break (then nothing is appended). -/
def scanTable : List (String × ℚ) → ℚ → ℚ → Option String
  | [], _, _ => none
  | (value, prob) :: rest, cumulative, r =>
    if r ≤ cumulative + prob then some value
    else scanTable rest (cumulative + prob) r

/-- Embedding of `TableDistribution.generate`: one scan per uniform, labels
of scans that never broke are simply absent from the result. -/
def generate (table : List (String × ℚ)) (random_numbers : List ℚ) :
    List String :=
  random_numbers.filterMap (fun r => scanTable table 0 r)

/-- Cumulative probability mass of the first `i` table entries. -/
def cumSum (table : List (String × ℚ)) (i : ℕ) : ℚ :=
  ((table.take i).map Prod.snd).sum

/-- The constructor check of `TableDistribution.__init__`:
`math.isclose(sum, 1.0, rel_tol=1e-5)` with default `abs_tol=0`. -/
def tableSumsValid (table : List (String × ℚ)) : Prop :=
  |((table.map Prod.snd).sum) - 1|
    ≤ max ((1 / 100000) * max |(table.map Prod.snd).sum| 1) 0

end TableDistribution

namespace PoissonDistribution

/-- The per-uniform inverse-CDF loop of `PoissonDistribution.generate` in
`src/prng/distributions.py`, with explicit fuel standing for the
`while True` loop: accumulate `pmf x` into the CDF, emit `x` once
`r <= cdf`, otherwise increment `x` and emit it as a fallback once it
exceeds `3 * lam`. The scipy `poisson.pmf` values are an external library's
reals and are abstracted as the function parameter `pmf`; the loop's
control flow does not depend on them. -/
def scan (pmf : ℕ → ℚ) (lam r : ℚ) : ℕ → ℕ → ℚ → Option ℕ
  | 0, _, _ => none
  | Nat.succ fuel, x, cdf =>
    if r ≤ cdf + pmf x then some x
    else if 3 * lam < ((x + 1 : ℕ) : ℚ) then some (x + 1)
    else scan pmf lam r fuel (x + 1) (cdf + pmf x)

/-- Embedding of `PoissonDistribution.generate`: one scan per uniform,
started at `x = 0`, `cdf = 0`, with fuel `⌊3 * lam⌋.toNat + 1` — exactly
the claimed bound on the number of loop iterations. A `none` anywhere
(the fuel running out) makes the whole result `none`. -/
def generate (pmf : ℕ → ℚ) (lam : ℚ) (random_numbers : List ℚ) :
    Option (List ℕ) :=
  random_numbers.mapM (fun r => scan pmf lam r (⌊3 * lam⌋.toNat + 1) 0 0)

end PoissonDistribution

namespace NormalDistribution

/-- Python `math.log`: raises `ValueError: math domain error` on a
non-positive argument (documented CPython behaviour); the value on a
positive argument is an irrational real and is abstracted by `logf`. -/
def pyLog (logf : ℚ → ℚ) (x : ℚ) : Except String ℚ :=
  if x ≤ 0 then Except.error "math domain error" else Except.ok (logf x)

/-- Python `math.sqrt`: raises on a negative argument, value abstracted. -/
def pySqrt (sqrtf : ℚ → ℚ) (x : ℚ) : Except String ℚ :=
  if x < 0 then Except.error "math domain error" else Except.ok (sqrtf x)

/-- The optional class-discretization step of `NormalDistribution.generate`
in `src/prng/distributions.py`: map a value to the midpoint of its
enclosing equal-width class within `[class_min, class_max]` (defaults
`±3 * sigma`), then clamp into that range. `int()` truncation is `pyInt`. -/
def discretize (sigma : ℚ) (num_classes : Option ℕ)
    (class_min class_max : Option ℚ) (x : ℚ) : ℚ :=
  match num_classes with
  | none => x
  | some nc =>
    let min_val := class_min.getD (-3 * sigma)
    let max_val := class_max.getD (3 * sigma)
    let class_width := (max_val - min_val) / nc
    let x2 := min_val + ((pyInt ((x - min_val) / class_width) : ℚ) + 1/2)
      * class_width
    max (min x2 max_val) min_val

/-- Embedding of `NormalDistribution.generate`: uniforms are consumed
pairwise (a trailing unpaired element is dropped); each pair goes through
the Box-Muller transform `z = sqrt(-2 log u1) * cos/sin(2 pi u2)`. The
transcendental values are abstracted as `logf`, `cos2pi u = cos(2*pi*u)`,
`sin2pi u = sin(2*pi*u)` and `sqrtf`; the domain errors of `log`/`sqrt`
are modelled exactly and propagate like the Python exception. -/
def generate (logf cos2pi sin2pi sqrtf : ℚ → ℚ) (mu sigma : ℚ)
    (num_classes : Option ℕ) (class_min class_max : Option ℚ) :
    List ℚ → Except String (List ℚ)
  | u1 :: u2 :: rest => do
    let lg ← pyLog logf u1
    let s ← pySqrt sqrtf (-2 * lg)
    let z0 := s * cos2pi u2
    let z1 := s * sin2pi u2
    let x0 := discretize sigma num_classes class_min class_max
      (z0 * sigma + mu)
    let x1 := discretize sigma num_classes class_min class_max
      (z1 * sigma + mu)
    let rest2 ← generate logf cos2pi sin2pi sqrtf mu sigma num_classes
      class_min class_max rest
    pure (x0 :: x1 :: rest2)
  | _ => Except.ok []
end NormalDistribution

theorem CongruentialMixed.mixedIter_length (a c m x : ℤ) (n : ℕ) :
    (mixedIter a c m x n).length = n := by
  induction n generalizing x with
  | zero => rfl
  | succ k ih => simp [mixedIter, ih]

theorem CongruentialMixed.mixedIter_step (a c m : ℤ) (n : ℕ) :
    ∀ (x : ℤ) (i : ℕ) (xi xj : ℤ),
      (x :: mixedIter a c m x n).get? i = some xi →
      (x :: mixedIter a c m x n).get? (i + 1) = some xj →
      xj = (a * xi + c) % m := by
  induction n with
  | zero =>
    intro x i xi xj hi hj
    cases i <;> simp [mixedIter] at hi hj
  | succ k ih =>
    intro x i xi xj hi hj
    cases i with
    | zero =>
      simp [mixedIter] at hi hj
      subst hi
      exact hj.symm
    | succ i =>
      have hi' : ((a * x + c) % m :: mixedIter a c m ((a * x + c) % m) k).get? i
          = some xi := by
        simpa [mixedIter] using hi
      have hj' : ((a * x + c) % m :: mixedIter a c m ((a * x + c) % m) k).get? (i + 1)
          = some xj := by
        simpa [mixedIter] using hj
      exact ih ((a * x + c) % m) i xi xj hi' hj'

theorem ChiSquare.tally_foldl_length (k : ℕ) :
    ∀ (seq : List ℚ) (freqs : List ℕ),
      (seq.foldl (fun freqs v =>
        freqs.set (binIndex k v).toNat (freqs.getD (binIndex k v).toNat 0 + 1))
        freqs).length = freqs.length := by
  intro seq
  induction seq with
  | nil => intro freqs; rfl
  | cons v rest ih =>
    intro freqs
    rw [List.foldl_cons, ih, List.length_set]

theorem ChiSquare.tally_foldl_getD (k : ℕ) :
    ∀ (seq : List ℚ) (freqs : List ℕ) (b : ℕ), b < freqs.length →
      (∀ v ∈ seq, (binIndex k v).toNat < freqs.length) →
      (seq.foldl (fun freqs v =>
        freqs.set (binIndex k v).toNat (freqs.getD (binIndex k v).toNat 0 + 1))
        freqs).getD b 0
        = freqs.getD b 0
          + seq.countP (fun v => decide ((binIndex k v).toNat = b)) := by
  intro seq
  induction seq with
  | nil => intro freqs b hb _; simp
  | cons v rest ih =>
    intro freqs b hb hin
    rw [List.foldl_cons, List.countP_cons]
    have hv : (binIndex k v).toNat < freqs.length := hin v (by simp)
    have hrest : ∀ u ∈ rest, (binIndex k u).toNat <
        (freqs.set (binIndex k v).toNat
          (freqs.getD (binIndex k v).toNat 0 + 1)).length := by
      intro u hu
      rw [List.length_set]
      exact hin u (by simp [hu])
    rw [ih _ b (by rw [List.length_set]; exact hb) hrest]
    by_cases h : (binIndex k v).toNat = b
    · subst h
      rw [List.getD_eq_getElem?_getD, List.getElem?_set_self hv]
      simp
      omega
    · rw [List.getD_eq_getElem?_getD, List.getElem?_set_ne h,
        ← List.getD_eq_getElem?_getD]
      simp [h]

theorem ChiSquare.tally_eq_counts (k : ℕ) (seq : List ℚ)
    (hin : ∀ v ∈ seq, (binIndex k v).toNat < k) :
    tally k seq = (List.range k).map
      (fun b => seq.countP (fun v => decide ((binIndex k v).toNat = b))) := by
  have hlen : (tally k seq).length = k := by
    rw [tally, tally_foldl_length]
    exact List.length_replicate k 0
  refine List.ext_getElem (by simp [hlen]) ?_
  intro b h1 h2
  have hbk : b < k := by rwa [hlen] at h1
  have hgetD : (tally k seq)[b] = (tally k seq).getD b 0 := by
    rw [List.getD_eq_getElem?_getD, List.getElem?_eq_getElem h1]
    rfl
  rw [hgetD, tally,
    tally_foldl_getD k seq _ b (by simpa using hbk) (by intro v hv; simpa using hin v hv)]
  rw [List.getD_eq_getElem?_getD, List.getElem?_replicate, if_pos hbk]
  simp

theorem ChiSquare.binIndex_nonneg_lt (k : ℕ) (hk : 1 ≤ k) (v : ℚ)
    (h0 : 0 ≤ v) (h1 : v ≤ 1) : 0 ≤ binIndex k v ∧ binIndex k v < k := by
  have hnn : (0 : ℚ) ≤ v * k := mul_nonneg h0 (by positivity)
  have hfl : pyInt (v * k) = ⌊v * (k : ℚ)⌋ := if_pos hnn
  have hge : 0 ≤ ⌊v * (k : ℚ)⌋ := Int.floor_nonneg.mpr hnn
  have hle : ⌊v * (k : ℚ)⌋ ≤ k := by
    have hvk : v * k ≤ (k : ℚ) := by
      calc v * k ≤ 1 * k := mul_le_mul_of_nonneg_right h1 (by positivity)
      _ = k := one_mul _
    calc ⌊v * (k : ℚ)⌋ ≤ ⌊(k : ℚ)⌋ := Int.floor_le_floor hvk
    _ = k := Int.floor_natCast k
  unfold binIndex
  rw [hfl]
  by_cases he : ⌊v * (k : ℚ)⌋ = (k : ℤ)
  · rw [if_pos he]
    omega
  · rw [if_neg he]
    exact ⟨hge, lt_of_le_of_ne hle he⟩

theorem ChiSquare.sum_map_ite_eq_sum_filter_map {α : Type} (l : List α) (p : α → Prop)
    [DecidablePred p] (f : α → ℚ) :
    ((l.filter (fun v => decide (p v))).map f).sum
      = (l.map (fun v => if p v then f v else 0)).sum := by
  induction l with
  | nil => rfl
  | cons a l ih => by_cases h : p a <;> simp [List.filter_cons, h, ih]

theorem TableDistribution.cumSum_cons (v : String) (p : ℚ) (rest : List (String × ℚ)) (j : ℕ) :
    cumSum ((v, p) :: rest) (j + 1) = p + cumSum rest j := by
  simp [cumSum, List.take_succ_cons]

theorem TableDistribution.scanTable_first :
    ∀ (table : List (String × ℚ)) (cum r : ℚ) (i : ℕ) (hi : i < table.length),
      r ≤ cum + cumSum table (i + 1) →
      (∀ j < i, ¬ r ≤ cum + cumSum table (j + 1)) →
      scanTable table cum r = some (table.get ⟨i, hi⟩).1 := by
  intro table
  induction table with
  | nil =>
    intro cum r i hi
    exact absurd hi (by simp)
  | cons vp rest ih =>
    intro cum r i hi hq hmin
    obtain ⟨v, p⟩ := vp
    cases i with
    | zero =>
      rw [cumSum_cons] at hq
      simp only [cumSum, List.take_zero, List.map_nil, List.sum_nil,
        add_zero] at hq
      unfold scanTable
      rw [if_pos (by linarith)]
      rfl
    | succ i =>
      have h0 : ¬ r ≤ cum + cumSum ((v, p) :: rest) 1 := hmin 0 (by omega)
      rw [cumSum_cons] at h0
      simp only [cumSum, List.take_zero, List.map_nil, List.sum_nil,
        add_zero] at h0
      unfold scanTable
      rw [if_neg h0]
      have hi' : i < rest.length := by simpa using hi
      have hq' : r ≤ (cum + p) + cumSum rest (i + 1) := by
        rw [cumSum_cons] at hq
        linarith
      have hmin' : ∀ j < i, ¬ r ≤ (cum + p) + cumSum rest (j + 1) := by
        intro j hj
        have := hmin (j + 1) (by omega)
        rw [cumSum_cons] at this
        intro hc
        exact this (by linarith)
      rw [ih (cum + p) r i hi' hq' hmin']
      rfl

theorem TableDistribution.scanTable_none :
    ∀ (table : List (String × ℚ)) (cum r : ℚ),
      (∀ p ∈ table.map Prod.snd, 0 ≤ p) →
      cum + (table.map Prod.snd).sum < r →
      TableDistribution.scanTable table cum r = none := by
  intro table
  induction table with
  | nil => intro cum r _ _; rfl
  | cons vp rest ih =>
    intro cum r hpos hlt
    obtain ⟨v, p⟩ := vp
    have hrest : ∀ q ∈ rest.map Prod.snd, 0 ≤ q := by
      intro q hq
      exact hpos q (by simp at hq ⊢; tauto)
    have hsum : 0 ≤ (rest.map Prod.snd).sum :=
      List.sum_nonneg (by intro q hq; exact hrest q hq)
    simp only [List.map_cons, List.sum_cons] at hlt
    unfold TableDistribution.scanTable
    rw [if_neg (by push_neg; linarith)]
    exact ih (cum + p) r hrest (by linarith)

theorem length_filterMap_lt_of_mem_none {β γ : Type} (f : β → Option γ) :
    ∀ (l : List β), (∃ x ∈ l, f x = none) →
      (l.filterMap f).length < l.length := by
  intro l
  induction l with
  | nil => rintro ⟨x, hx, _⟩; exact absurd hx (by simp)
  | cons a l ih =>
    rintro ⟨x, hx, hfx⟩
    rcases List.mem_cons.mp hx with h | h
    · have hfa : f a = none := by rw [← h]; exact hfx
      rw [List.filterMap_cons_none hfa]
      calc (l.filterMap f).length ≤ l.length := l.length_filterMap_le f
      _ < (a :: l).length := by simp
    · cases hfa : f a with
      | none =>
        rw [List.filterMap_cons_none hfa]
        calc (l.filterMap f).length ≤ l.length := l.length_filterMap_le f
        _ < (a :: l).length := by simp
      | some y =>
        rw [List.filterMap_cons_some hfa]
        have := ih ⟨x, h, hfx⟩
        simpa using Nat.succ_lt_succ this

theorem PoissonDistribution.scan_some (pmf : ℕ → ℚ) (lam r : ℚ) :
    ∀ (fuel x : ℕ) (cdf : ℚ), 1 ≤ fuel → ⌊3 * lam⌋ + 1 ≤ (x : ℤ) + fuel →
      ∃ v, scan pmf lam r fuel x cdf = some v := by
  intro fuel
  induction fuel with
  | zero => intro x cdf h; omega
  | succ fuel ih =>
    intro x cdf _ hx
    by_cases h1 : r ≤ cdf + pmf x
    · exact ⟨x, by unfold scan; rw [if_pos h1]⟩
    · by_cases h2 : 3 * lam < ((x + 1 : ℕ) : ℚ)
      · exact ⟨x + 1, by unfold scan; rw [if_neg h1, if_pos h2]⟩
      · have hfuel : 1 ≤ fuel := by
          by_contra hf
          have hfuel0 : fuel = 0 := by omega
          subst hfuel0
          have hxk : ⌊3 * lam⌋ ≤ (x : ℤ) := by omega
          have : 3 * lam < ((x + 1 : ℕ) : ℚ) := by
            calc 3 * lam < ⌊3 * lam⌋ + 1 := Int.lt_floor_add_one _
            _ ≤ (x : ℚ) + 1 := by
              have : (⌊3 * lam⌋ : ℚ) ≤ (x : ℚ) := by exact_mod_cast hxk
              linarith
            _ = ((x + 1 : ℕ) : ℚ) := by push_cast; ring
          exact absurd this h2
        obtain ⟨v, hv⟩ := ih (x + 1) (cdf + pmf x) hfuel (by push_cast; omega)
        exact ⟨v, by unfold scan; rw [if_neg h1, if_neg h2]; exact hv⟩

theorem exceptBind_ok {epsilon alpha beta : Type} (a : alpha)
    (f : alpha → Except epsilon beta) :
    (Except.ok a : Except epsilon alpha) >>= f = f a := rfl

theorem exceptBind_error {epsilon alpha beta : Type} (msg : epsilon)
    (f : alpha → Except epsilon beta) :
    (Except.error msg : Except epsilon alpha) >>= f
      = (Except.error msg : Except epsilon beta) := rfl

theorem exceptMap_error {epsilon alpha beta : Type} (f : alpha → beta)
    (msg : epsilon) :
    f <$> (Except.error msg : Except epsilon alpha)
      = (Except.error msg : Except epsilon beta) := rfl

/-- C1 (counterexample): for ten observations of label `0` against the
probability table `{0 ↦ 9/10, 1 ↦ 1/10}`, category `1` has expected
frequency `1 < 5` and is excluded from the statistic, yet the returned
degrees of freedom are `2 - 1 = 1` while the number of included categories
minus one is `0`. -/
theorem chi_square_distribution_df_counterexample :
    (ChiSquare.chi_square_test_distribution (List.replicate 10 (0 : ℕ))
        [(0, (9 : ℚ)/10), (1, (1 : ℚ)/10)]).2
      ≠ (((ChiSquare.allValues (List.replicate 10 (0 : ℕ))
          [(0, (9 : ℚ)/10), (1, (1 : ℚ)/10)]).filter
          (fun v => decide (5 ≤ ChiSquare.expFreq (List.replicate 10 (0 : ℕ))
            [(0, (9 : ℚ)/10), (1, (1 : ℚ)/10)] v))).length : ℤ) - 1 ∧
    (ChiSquare.chi_square_test_distribution (List.replicate 10 (0 : ℕ))
        [(0, (9 : ℚ)/10), (1, (1 : ℚ)/10)]).2 = 1 ∧
    (((ChiSquare.allValues (List.replicate 10 (0 : ℕ))
        [(0, (9 : ℚ)/10), (1, (1 : ℚ)/10)]).filter
        (fun v => decide (5 ≤ ChiSquare.expFreq (List.replicate 10 (0 : ℕ))
          [(0, (9 : ℚ)/10), (1, (1 : ℚ)/10)] v))).length : ℤ) - 1 = 0 := by
  have hlen : ((ChiSquare.allValues (List.replicate 10 (0 : ℕ))
      [(0, (9 : ℚ)/10), (1, (1 : ℚ)/10)]).filter
      (fun v => decide (5 ≤ ChiSquare.expFreq (List.replicate 10 (0 : ℕ))
        [(0, (9 : ℚ)/10), (1, (1 : ℚ)/10)] v))).length = 1 := by
    norm_num [ChiSquare.allValues, ChiSquare.expFreq, ChiSquare.lookupD,
      List.find?, List.filter, List.dedup, List.pwFilter, List.replicate]
  have hdf : (ChiSquare.chi_square_test_distribution (List.replicate 10 (0 : ℕ))
      [(0, (9 : ℚ)/10), (1, (1 : ℚ)/10)]).2 = 1 := by
    have hcard : (ChiSquare.allValues (List.replicate 10 (0 : ℕ))
        [(0, (9 : ℚ)/10), (1, (1 : ℚ)/10)]).length = 2 := by decide
    show ((ChiSquare.allValues (List.replicate 10 (0 : ℕ))
        [(0, (9 : ℚ)/10), (1, (1 : ℚ)/10)]).length : ℤ) - 1 = 1
    rw [hcard]
    decide
  refine ⟨?_, hdf, ?_⟩
  · rw [hdf, hlen]
    decide
  · rw [hlen]
    decide

/-- C1 (amended): categories whose expected frequency is below `5` are
excluded from the statistic sum, but the degrees of freedom count every
category of the observed/theoretical union: they equal
`|all categories| - 1`, not `|included categories| - 1`. -/
theorem chi_square_distribution_pooling :
    ∀ {α : Type} [DecidableEq α] (observed : List α) (probs : List (α × ℚ)),
      (probs.map Prod.fst).Nodup →
      ChiSquare.chi_square_test_distribution observed probs =
        ((((ChiSquare.allValues observed probs).filter
            (fun v => decide (5 ≤ ChiSquare.expFreq observed probs v))).map
            (fun v =>
              ((observed.count v : ℚ) - ChiSquare.expFreq observed probs v) ^ 2
                / ChiSquare.expFreq observed probs v)).sum,
         ((ChiSquare.allValues observed probs).length : ℤ) - 1) := by
  intro α _ observed probs _
  unfold ChiSquare.chi_square_test_distribution
  have key : (((ChiSquare.allValues observed probs).filter
        (fun v => decide (5 ≤ ChiSquare.expFreq observed probs v))).map
        (fun v =>
          ((observed.count v : ℚ) - ChiSquare.expFreq observed probs v) ^ 2
            / ChiSquare.expFreq observed probs v)).sum
      = ((ChiSquare.allValues observed probs).map (fun v =>
          if ChiSquare.expFreq observed probs v < 5 then 0
          else ((observed.count v : ℚ) - ChiSquare.expFreq observed probs v) ^ 2
            / ChiSquare.expFreq observed probs v)).sum := by
    rw [ChiSquare.sum_map_ite_eq_sum_filter_map]
    refine congrArg List.sum (List.map_congr_left ?_)
    intro v _
    by_cases h : ChiSquare.expFreq observed probs v < 5
    · simp [h, not_le.mpr h]
    · simp [h, not_lt.mp h]
  rw [key]

/-- Witness for C1 (amended) at the counterexample's concrete input. -/
theorem chi_square_distribution_pooling_witness :
    ChiSquare.chi_square_test_distribution (List.replicate 10 (0 : ℕ))
        [(0, (9 : ℚ)/10), (1, (1 : ℚ)/10)] =
      ((((ChiSquare.allValues (List.replicate 10 (0 : ℕ))
          [(0, (9 : ℚ)/10), (1, (1 : ℚ)/10)]).filter
          (fun v => decide (5 ≤ ChiSquare.expFreq (List.replicate 10 (0 : ℕ))
            [(0, (9 : ℚ)/10), (1, (1 : ℚ)/10)] v))).map
          (fun v =>
            (((List.replicate 10 (0 : ℕ)).count v : ℚ)
                - ChiSquare.expFreq (List.replicate 10 (0 : ℕ))
                  [(0, (9 : ℚ)/10), (1, (1 : ℚ)/10)] v) ^ 2
              / ChiSquare.expFreq (List.replicate 10 (0 : ℕ))
                [(0, (9 : ℚ)/10), (1, (1 : ℚ)/10)] v)).sum,
       ((ChiSquare.allValues (List.replicate 10 (0 : ℕ))
          [(0, (9 : ℚ)/10), (1, (1 : ℚ)/10)]).length : ℤ) - 1) :=
  chi_square_distribution_pooling (List.replicate 10 (0 : ℕ))
    [(0, (9 : ℚ)/10), (1, (1 : ℚ)/10)] (by decide)

/-- C2 (code bug): `series[2:]` drops the single seed and the first
generated term, so for the valid inputs `n = 1, d = 2, x1 = 12` and
`n = 5, d = 2, x1 = 12` the generator returns `0` and `4` terms
respectively, not the `n` terms its own docstring promises. -/
theorem mid_square_length_bug :
    MidSquare.generate_sequence 1 2 12 = Except.ok [] ∧
    MidSquare.generate_sequence 5 2 12 = Except.ok [19, 36, 29, 84] := by
  constructor <;> rfl

/-- C3: for all valid MixedCongruential parameters the generator succeeds
with a list of length `n + 1` starting at `x0` in which every consecutive
pair satisfies `x_{i+1} = (a * x_i + c) % m`; in particular
`generate_sequence 5 7 5 3 16 = [7, 6, 1, 8, 11, 10]`. -/
theorem mixed_congruential_recurrence :
    (∀ (n : ℕ) (x0 a c m : ℤ), 0 < x0 → 0 < a → 0 < c →
      max x0 (max a c) < m →
      ∃ l, CongruentialMixed.generate_sequence n x0 a c m = Except.ok l ∧
        l.length = n + 1 ∧ l.get? 0 = some x0 ∧
        (∀ i xi xj, l.get? i = some xi → l.get? (i + 1) = some xj →
          xj = (a * xi + c) % m)) ∧
    CongruentialMixed.generate_sequence 5 7 5 3 16 =
      Except.ok [7, 6, 1, 8, 11, 10] := by
  constructor
  · intro n x0 a c m hx ha hc hm
    refine ⟨x0 :: CongruentialMixed.mixedIter a c m x0 n, ?_, ?_, rfl, ?_⟩
    · simp [CongruentialMixed.generate_sequence, hx, ha, hc, hm]
    · simp [CongruentialMixed.mixedIter_length]
    · exact CongruentialMixed.mixedIter_step a c m n x0
  · simp [CongruentialMixed.generate_sequence]
    decide

/-- Witness for C3 at the spec's concrete example `n=5, x0=7, a=5, c=3, m=16`. -/
theorem mixed_congruential_recurrence_witness :
    ∃ l, CongruentialMixed.generate_sequence 5 7 5 3 16 = Except.ok l ∧
      l.length = 5 + 1 ∧ l.get? 0 = some 7 ∧
      (∀ i xi xj, l.get? i = some xi → l.get? (i + 1) = some xj →
        xj = (5 * xi + 3) % 16) :=
  mixed_congruential_recurrence.1 5 7 5 3 16 (by decide) (by decide) (by decide)
    (by decide)

/-- C4: on a non-empty normalized sequence and any `k >= 1`, the uniform
chi-square test bins each value at `floor(value * k)` clamped to `k - 1`
when the index equals `k`, returns the statistic
`sum over the k bins of (observed - n/k)^2 / (n/k)` and degrees of freedom
`k - 1`; in particular one value per bin with `k = 10` gives statistic `0`
and `9` degrees of freedom. -/
theorem chi_square_uniform_spec :
    (∀ (seq : List ℚ) (k : ℕ), 1 ≤ k → seq ≠ [] →
      (∀ v ∈ seq, 0 ≤ v ∧ v ≤ 1) →
      (∀ v ∈ seq, ChiSquare.binIndex k v =
        if ⌊v * (k : ℚ)⌋ = (k : ℤ) then (k : ℤ) - 1 else ⌊v * (k : ℚ)⌋) ∧
      ChiSquare.chi_square_test_uniform seq k =
        (((List.range k).map (fun (b : ℕ) =>
            ((seq.countP (fun v => decide (ChiSquare.binIndex k v = (b : ℤ)))
              : ℚ) - (seq.length : ℚ) / (k : ℚ)) ^ 2
            / ((seq.length : ℚ) / (k : ℚ)))).sum,
         (k : ℤ) - 1)) ∧
    ChiSquare.chi_square_test_uniform
      [1/20, 3/20, 5/20, 7/20, 9/20, 11/20, 13/20, 15/20, 17/20, 19/20] 10
      = (0, 9) := by
  constructor
  · intro seq k hk _ hnorm
    have hrange : ∀ v ∈ seq,
        0 ≤ ChiSquare.binIndex k v ∧ ChiSquare.binIndex k v < k := by
      intro v hv
      exact ChiSquare.binIndex_nonneg_lt k hk v (hnorm v hv).1 (hnorm v hv).2
    constructor
    · intro v hv
      unfold ChiSquare.binIndex
      rw [show pyInt (v * k) = ⌊v * (k : ℚ)⌋ from
        if_pos (mul_nonneg (hnorm v hv).1 (by positivity))]
    · have hin : ∀ v ∈ seq, (ChiSquare.binIndex k v).toNat < k := by
        intro v hv
        have h := hrange v hv
        omega
      unfold ChiSquare.chi_square_test_uniform
      rw [ChiSquare.tally_eq_counts k seq hin, List.map_map]
      simp only [Prod.mk.injEq]
      refine ⟨congrArg List.sum (List.map_congr_left ?_), trivial⟩
      intro b hb
      have hcong : seq.countP (fun v => decide ((ChiSquare.binIndex k v).toNat = b))
          = seq.countP (fun v => decide (ChiSquare.binIndex k v = (b : ℤ))) := by
        refine List.countP_congr ?_
        intro v hv
        have h := hrange v hv
        simp only [decide_eq_true_eq]
        omega
      simp only [Function.comp_apply, hcong]
  · have h0 : ChiSquare.binIndex 10 (1/20) = 0 := by
      norm_num [ChiSquare.binIndex, pyInt]
    have h1 : ChiSquare.binIndex 10 (3/20) = 1 := by
      norm_num [ChiSquare.binIndex, pyInt]
    have h2 : ChiSquare.binIndex 10 (5/20) = 2 := by
      norm_num [ChiSquare.binIndex, pyInt]
    have h3 : ChiSquare.binIndex 10 (7/20) = 3 := by
      norm_num [ChiSquare.binIndex, pyInt]
    have h4 : ChiSquare.binIndex 10 (9/20) = 4 := by
      norm_num [ChiSquare.binIndex, pyInt]
    have h5 : ChiSquare.binIndex 10 (11/20) = 5 := by
      norm_num [ChiSquare.binIndex, pyInt]
    have h6 : ChiSquare.binIndex 10 (13/20) = 6 := by
      norm_num [ChiSquare.binIndex, pyInt]
    have h7 : ChiSquare.binIndex 10 (15/20) = 7 := by
      norm_num [ChiSquare.binIndex, pyInt]
    have h8 : ChiSquare.binIndex 10 (17/20) = 8 := by
      norm_num [ChiSquare.binIndex, pyInt]
    have h9 : ChiSquare.binIndex 10 (19/20) = 9 := by
      norm_num [ChiSquare.binIndex, pyInt]
    have htally : ChiSquare.tally 10
        [1/20, 3/20, 5/20, 7/20, 9/20, 11/20, 13/20, 15/20, 17/20, 19/20]
        = List.replicate 10 1 := by
      simp only [ChiSquare.tally, List.foldl, h0, h1, h2, h3, h4, h5, h6, h7, h8, h9]
      decide
    unfold ChiSquare.chi_square_test_uniform
    rw [htally]
    norm_num [List.map_replicate, List.sum_replicate]

/-- Witness for C4 at the spec's concrete one-value-per-bin example. -/
theorem chi_square_uniform_spec_witness :
    (∀ v ∈ ([1/20, 3/20, 5/20, 7/20, 9/20, 11/20, 13/20, 15/20, 17/20, 19/20]
        : List ℚ),
      ChiSquare.binIndex 10 v =
        if ⌊v * (10 : ℚ)⌋ = (10 : ℤ) then (10 : ℤ) - 1 else ⌊v * (10 : ℚ)⌋) ∧
    ChiSquare.chi_square_test_uniform
        [1/20, 3/20, 5/20, 7/20, 9/20, 11/20, 13/20, 15/20, 17/20, 19/20] 10 =
      (((List.range 10).map (fun (b : ℕ) =>
          ((([1/20, 3/20, 5/20, 7/20, 9/20, 11/20, 13/20, 15/20, 17/20, 19/20]
              : List ℚ).countP
              (fun v => decide (ChiSquare.binIndex 10 v = (b : ℤ))) : ℚ)
            - (([1/20, 3/20, 5/20, 7/20, 9/20, 11/20, 13/20, 15/20, 17/20,
                19/20] : List ℚ).length : ℚ) / (10 : ℚ)) ^ 2
          / ((([1/20, 3/20, 5/20, 7/20, 9/20, 11/20, 13/20, 15/20, 17/20,
                19/20] : List ℚ).length : ℚ) / (10 : ℚ)))).sum,
       (10 : ℤ) - 1) :=
  chi_square_uniform_spec.1
    [1/20, 3/20, 5/20, 7/20, 9/20, 11/20, 13/20, 15/20, 17/20, 19/20] 10
    (by norm_num) (by simp)
    (by intro v hv; fin_cases hv <;> norm_num)

/-- C5: for every `v` and positive `d`, `extract_middle_digits` pads the
decimal rendering by one leading zero exactly on parity mismatch, errors
when the padded rendering is shorter than `d`, and otherwise returns the
integer formed by the `d` digits starting at index `(length - d) / 2`. -/
theorem extract_middle_digits_spec :
    ∀ v d : ℕ, 0 < d →
      (((MidSquare.decimalDigits v).length % 2 ≠ d % 2 →
        MidSquare.padDigits v d = 0 :: MidSquare.decimalDigits v) ∧
       ((MidSquare.decimalDigits v).length % 2 = d % 2 →
        MidSquare.padDigits v d = MidSquare.decimalDigits v)) ∧
      ((MidSquare.padDigits v d).length < d →
        ∃ e, MidSquare.extract_middle_digits v d = Except.error e) ∧
      (d ≤ (MidSquare.padDigits v d).length →
        MidSquare.extract_middle_digits v d =
          Except.ok (MidSquare.natOfDigits
            (((MidSquare.padDigits v d).drop
              (((MidSquare.padDigits v d).length - d) / 2)).take d))) := by
  intro v d _
  refine ⟨⟨?_, ?_⟩, ?_, ?_⟩
  · intro h
    simp [MidSquare.padDigits, h]
  · intro h
    simp [MidSquare.padDigits, h]
  · intro h
    refine ⟨"Squared number has fewer digits than required", ?_⟩
    simp [MidSquare.extract_middle_digits, h]
  · intro h
    simp [MidSquare.extract_middle_digits, Nat.not_lt_of_ge h]

/-- Witness for C5 at the spec's concrete example
`extract_middle_digits 1234 2 = 23`. -/
theorem extract_middle_digits_spec_witness :
    MidSquare.extract_middle_digits 1234 2 =
      Except.ok (MidSquare.natOfDigits
        (((MidSquare.padDigits 1234 2).drop
          (((MidSquare.padDigits 1234 2).length - 2) / 2)).take 2)) ∧
    MidSquare.extract_middle_digits 1234 2 = Except.ok 23 :=
  ⟨(extract_middle_digits_spec 1234 2 (by decide)).2.2 (by decide), rfl⟩

/-- C6: for a uniform `r` for which some label qualifies, the table
distribution emits the first label in table order whose cumulative
probability mass is at least `r`; formally, appending such an `r` to the
input appends exactly the label at the first qualifying index. -/
theorem table_generate_first_qualifying :
    ∀ (table : List (String × ℚ)) (rs : List ℚ) (r : ℚ) (i : ℕ)
      (hi : i < table.length),
      r ≤ TableDistribution.cumSum table (i + 1) →
      (∀ j < i, ¬ r ≤ TableDistribution.cumSum table (j + 1)) →
      TableDistribution.generate table (rs ++ [r])
        = TableDistribution.generate table rs ++ [(table.get ⟨i, hi⟩).1] := by
  intro table rs r i hi hq hmin
  unfold TableDistribution.generate
  rw [List.filterMap_append]
  have hscan : TableDistribution.scanTable table 0 r = some (table.get ⟨i, hi⟩).1 := by
    refine TableDistribution.scanTable_first table 0 r i hi ?_ ?_
    · simpa using hq
    · intro j hj
      simpa using hmin j hj
  simp [hscan]

/-- Witness for C6 on the spec's table `{A: 0.3, B: 0.7}`: uniform `0.25`
emits `A` (first index with cumulative `0.3 >= 0.25`) and uniform `0.5`
emits `B` (cumulative `0.3 < 0.5 <= 1.0`). -/
theorem table_generate_first_qualifying_witness :
    TableDistribution.generate [("A", 3/10), ("B", 7/10)] [1/4] = ["A"] ∧
    TableDistribution.generate [("A", 3/10), ("B", 7/10)] [1/2] = ["B"] := by
  constructor
  · exact table_generate_first_qualifying [("A", 3/10), ("B", 7/10)] [] (1/4) 0
      (by norm_num)
      (by norm_num [TableDistribution.cumSum])
      (by omega)
  · exact table_generate_first_qualifying [("A", 3/10), ("B", 7/10)] [] (1/2) 1
      (by norm_num)
      (by norm_num [TableDistribution.cumSum])
      (by intro j hj
          interval_cases j
          norm_num [TableDistribution.cumSum])

/-- C7: each congruential or Fibonacci variant errors exactly when some
seed, multiplier or additive constant fails to be positive or the modulus
fails to strictly exceed every other parameter, and succeeds otherwise. -/
theorem generator_validation_iff :
    ∀ (n : ℕ) (x0 x1 a c m : ℤ),
      ((∃ e, CongruentialMixed.generate_sequence n x0 a c m = Except.error e) ↔
        ¬ (0 < x0 ∧ 0 < a ∧ 0 < c ∧ max x0 (max a c) < m)) ∧
      ((∃ e, Fibonacci.generate_sequence n x0 x1 m = Except.error e) ↔
        ¬ (0 < x0 ∧ 0 < x1 ∧ max x0 x1 < m)) ∧
      ((∃ e, CongruentialAdditive.generate_sequence n x0 c m = Except.error e) ↔
        ¬ (0 < x0 ∧ 0 < c ∧ max x0 c < m)) ∧
      ((∃ e, CongruentialMultiplicative.generate_sequence n x0 a m =
          Except.error e) ↔
        ¬ (0 < x0 ∧ 0 < a ∧ max x0 a < m)) := by
  intro n x0 x1 a c m
  refine ⟨?_, ?_, ?_, ?_⟩
  · unfold CongruentialMixed.generate_sequence
    split_ifs with h1 h2 <;> simp <;> omega
  · unfold Fibonacci.generate_sequence
    split_ifs with h1 h2 <;> simp <;> omega
  · unfold CongruentialAdditive.generate_sequence
    split_ifs with h1 h2 <;> simp <;> omega
  · unfold CongruentialMultiplicative.generate_sequence
    split_ifs with h1 h2 <;> simp <;> omega

/-- C8: for any positive rate and any finite list of uniforms, every
per-uniform Poisson scan completes within `⌊3 * lam⌋ + 1` iterations —
the loop with exactly that much fuel never runs out, regardless of the
pmf values — so `generate` produces one sample per uniform. -/
theorem poisson_generate_terminates :
    ∀ (pmf : ℕ → ℚ) (lam : ℚ) (rs : List ℚ), 0 < lam →
      ∃ l, PoissonDistribution.generate pmf lam rs = some l ∧
        l.length = rs.length := by
  intro pmf lam rs hlam
  have hscan : ∀ r : ℚ, ∃ v,
      PoissonDistribution.scan pmf lam r (⌊3 * lam⌋.toNat + 1) 0 0 = some v := by
    intro r
    refine PoissonDistribution.scan_some pmf lam r (⌊3 * lam⌋.toNat + 1) 0 0
      (by omega) ?_
    have hfl : 0 ≤ ⌊3 * lam⌋ := Int.floor_nonneg.mpr (by positivity)
    omega
  unfold PoissonDistribution.generate
  induction rs with
  | nil => exact ⟨[], rfl, rfl⟩
  | cons r rest ih =>
    obtain ⟨l, hl, hlen⟩ := ih
    obtain ⟨v, hv⟩ := hscan r
    refine ⟨v :: l, ?_, by simp [hlen]⟩
    rw [List.mapM_cons, hv, hl]
    rfl

/-- Witness for C8 with the all-zero pmf (the scan never stops early),
rate `lam = 1` and one uniform: the scan exhausts the CDF walk and emits
the truncation point `4 = ⌊3 * 1⌋ + 1` within the claimed bound. -/
theorem poisson_generate_terminates_witness :
    (∃ l, PoissonDistribution.generate (fun _ => 0) 1 [1/2] = some l ∧
      l.length = 1) ∧
    PoissonDistribution.generate (fun _ => 0) 1 [1/2] = some [4] := by
  constructor
  · exact poisson_generate_terminates (fun _ => 0) 1 [1/2] (by norm_num)
  · have h4 : PoissonDistribution.scan (fun _ => 0) 1 (1/2) 4 0 0 = some 4 := by
      show PoissonDistribution.scan (fun _ => 0) 1 (1/2)
        (Nat.succ (Nat.succ (Nat.succ (Nat.succ 0)))) 0 0 = some 4
      norm_num [PoissonDistribution.scan]
    have hfl3 : ⌊(3 : ℚ) * 1⌋ = 3 := by norm_num
    have hfuel : (⌊(3 : ℚ) * 1⌋.toNat + 1) = 4 := by
      rw [hfl3]
      decide
    unfold PoissonDistribution.generate
    rw [List.mapM_cons]
    rw [hfuel, h4]
    rfl

/-- C9: the table distribution emits at most one label per uniform, and
emits strictly fewer labels than uniforms whenever some uniform exceeds the
table's total probability mass — possible even for a table accepted by the
constructor, whose check only requires the mass to be `1` within relative
tolerance `1e-5`; such a uniform produces no label at all. -/
theorem table_generate_truncates :
    ∀ (table : List (String × ℚ)) (rs : List ℚ),
      (∀ p ∈ table.map Prod.snd, 0 ≤ p) →
      TableDistribution.tableSumsValid table →
      (TableDistribution.generate table rs).length ≤ rs.length ∧
      ((∃ r ∈ rs, (table.map Prod.snd).sum < r) →
        (TableDistribution.generate table rs).length < rs.length) := by
  intro table rs hpos _
  constructor
  · exact rs.length_filterMap_le _
  · rintro ⟨r, hr, hlt⟩
    refine length_filterMap_lt_of_mem_none _ rs ⟨r, hr, ?_⟩
    exact TableDistribution.scanTable_none table 0 r hpos (by linarith)

/-- Witness for C9: the table `{A: 0.3, B: 0.699999}` passes the
constructor's `1e-5` relative-tolerance check with total mass `0.999999`,
yet the uniform `0.9999995` exceeds that mass and yields no label. -/
theorem table_generate_truncates_witness :
    TableDistribution.tableSumsValid [("A", 3/10), ("B", 699999/1000000)] ∧
    (TableDistribution.generate [("A", 3/10), ("B", 699999/1000000)]
      [9999995/10000000]).length < 1 := by
  have hvalid : TableDistribution.tableSumsValid
      [("A", 3/10), ("B", 699999/1000000)] := by
    norm_num [TableDistribution.tableSumsValid, abs]
  refine ⟨hvalid, ?_⟩
  have h := table_generate_truncates [("A", 3/10), ("B", 699999/1000000)]
    [9999995/10000000]
    (by intro p hp; simp at hp; rcases hp with h | h <;> rw [h] <;> norm_num)
    hvalid
  have := h.2 ⟨9999995/10000000, by simp, by norm_num⟩
  simpa using this

/-- C10: `NormalDistribution.generate` is not total on normalized inputs:
if any consumed pair's first uniform is `0` — a legal value, since
normalized sequences live in `[0, 1)` — the Box-Muller step evaluates
`log 0` and the whole call raises instead of returning a list. -/
theorem normal_generate_error_on_zero :
    ∀ (logf cos2pi sin2pi sqrtf : ℚ → ℚ) (mu sigma : ℚ)
      (nc : Option ℕ) (cmin cmax : Option ℚ) (rs : List ℚ) (i : ℕ),
      (∀ v ∈ rs, 0 ≤ v ∧ v < 1) →
      2 * i + 1 < rs.length →
      rs.get? (2 * i) = some 0 →
      ∃ e, NormalDistribution.generate logf cos2pi sin2pi sqrtf mu sigma
        nc cmin cmax rs = Except.error e := by
  intro logf cos2pi sin2pi sqrtf mu sigma nc cmin cmax rs i
  induction i generalizing rs with
  | zero =>
    intro _ hlen hget
    match rs, hlen with
    | u1 :: u2 :: rest, _ =>
      simp only [Nat.mul_zero, List.get?] at hget
      cases hget
      refine ⟨"math domain error", ?_⟩
      unfold NormalDistribution.generate
      rw [show NormalDistribution.pyLog logf 0 = Except.error "math domain error"
        from if_pos le_rfl]
      rfl
  | succ i ih =>
    intro hnorm hlen hget
    match rs, hlen with
    | u1 :: u2 :: rest, hlen =>
      have hget' : rest.get? (2 * i) = some 0 := by
        have h2 : 2 * (i + 1) = (2 * i) + 1 + 1 := by ring
        rw [h2] at hget
        simpa using hget
      have hlen' : 2 * i + 1 < rest.length := by
        simp only [List.length_cons] at hlen
        omega
      have hnorm' : ∀ v ∈ rest, 0 ≤ v ∧ v < 1 := by
        intro v hv
        exact hnorm v (by simp [hv])
      obtain ⟨e, he⟩ := ih rest hnorm' hlen' hget'
      cases hlg : NormalDistribution.pyLog logf u1 with
      | error el =>
        refine ⟨el, ?_⟩
        unfold NormalDistribution.generate
        rw [hlg]
        rfl
      | ok lg =>
        cases hsq : NormalDistribution.pySqrt sqrtf (-(2 * lg)) with
        | error es =>
          refine ⟨es, ?_⟩
          unfold NormalDistribution.generate
          simp [hlg, hsq, exceptBind_ok, exceptBind_error]
        | ok s =>
          refine ⟨e, ?_⟩
          unfold NormalDistribution.generate
          simp [hlg, hsq, he, exceptBind_ok, exceptBind_error, exceptMap_error]

/-- Witness for C10: the normalized input `[0, 1/2]` (with any stand-ins
for the transcendental functions) makes `generate` raise. -/
theorem normal_generate_error_on_zero_witness :
    ∃ e, NormalDistribution.generate (fun _ => 0) (fun _ => 0) (fun _ => 0)
      (fun _ => 0) 0 1 none none none [0, 1/2] = Except.error e :=
  normal_generate_error_on_zero (fun _ => 0) (fun _ => 0) (fun _ => 0)
    (fun _ => 0) 0 1 none none none [0, 1/2] 0
    (by intro v hv; fin_cases hv <;> norm_num)
    (by simp)
    rfl
